import Mathlib

/-!
Shallow embedding of the per-account state container of the `wey` chat
client (the `Account` class of the excerpted module, plus the mention-menu
reordering step of `lib/view/chat-box.js`), together with theorems checking
the natural-language specification against it.

Modelling conventions:
* JS objects used as maps (`this.users`, `this.userNamesMap`) become total
  functions `Nat → Option User` and `Char → List Nat`; a missing key is
  `none` / `[]` (for `userNamesMap` a missing bucket and an empty bucket are
  behaviourally identical in the source: both make the search loop scan
  nothing, and `push` after the `if (!bucket)` initialisation appends to an
  empty array either way).
* Code that can throw a `TypeError` on its inputs (reading `[0]` of an empty
  string, reading `.name` of an absent user) returns `Option`; `none` is the
  thrown exception.
* `mini-signals` dispatches are modelled as an explicit list of emitted
  events returned next to the new state; calls into the external
  `account-manager` registry singleton are opaque events.
-/

set_option autoImplicit false

namespace Wey

/-- A directory entry: `{id, name}` as used by `saveUser`/`findUsersByName`. -/
structure User where
  id : Nat
  name : String
  deriving Repr, DecidableEq

/-- A read-trackable entity (channel or DM).  DMs additionally carry the peer
`userId`; on plain channels the property is absent (`none`). -/
structure Channel where
  id : Nat
  isRead : Bool
  isMuted : Bool
  mentions : Nat
  userId : Option Nat := none
  deriving Repr, DecidableEq

/-- Signal dispatches observable during an `Account` method call.  The two
`registry` events stand for the calls into the external `account-manager`
module (`accountManager.onUpdateReadState.dispatch(...)` and
`accountManager.updateMentions()`). -/
inductive AccountEvent where
  | updateReadState (read : Bool)
  | updateMentions
  | registryUpdateReadState
  | registryUpdateMentions
  deriving Repr, DecidableEq

/-- The state of one `Account` object (the fields assigned in the
constructor; the signal objects themselves carry no state we model). -/
structure Account where
  id : String
  name : String
  icon : Option String
  url : String
  channels : List Channel
  dms : List Channel
  currentChannelId : Option String
  currentUserId : Option String
  currentUserName : Option String
  users : Nat → Option User
  userNamesMap : Char → List Nat
  isRead : Bool
  mentions : Nat
  status : String
  isChannelsReady : Bool

/-- Constant `MENTION_SEARCH_LIMIT = 5`. -/
def MENTION_SEARCH_LIMIT : Nat := 5

/-- The constructor: `new Account(service, config)` (`service` is reduced to
its `id`, the only part the constructor reads). -/
def Account.init (serviceId : String) (id name : String)
    (icon : Option String) (currentChannelId : Option String) : Account where
  id := id
  name := name
  icon := icon
  url := "https://" ++ id ++ "." ++ serviceId ++ ".com"
  channels := []
  dms := []
  currentChannelId := currentChannelId
  currentUserId := none
  currentUserName := none
  users := fun _ => none
  userNamesMap := fun _ => []
  isRead := true
  mentions := 0
  status := "connecting"
  isChannelsReady := false

/-- Method `findChannelByUserId(id)`: `this.dms.find((c) => c.userId === id)`.
DMs treated as channels; only `dms` is scanned. -/
def Account.findChannelByUserId (a : Account) (id : Nat) : Option Channel :=
  a.dms.find? (fun c => c.userId = some id)

/-- Method `findUserById(id)`: `this.users[id]`. -/
def Account.findUserById (a : Account) (id : Nat) : Option User :=
  a.users id

/-- JS `String.prototype.toLowerCase`, modelled characterwise.  (Lean's own
`String.toLower` is defined by well-founded recursion over byte positions and
does not reduce in the kernel; this equivalent form does.) -/
def jsToLower (s : String) : String :=
  String.mk (s.data.map Char.toLower)

/-- JS `s.indexOf(pre) === 0`, i.e. `pre` is a prefix of `s`. -/
def jsStartsWith (s pre : String) : Bool :=
  pre.data.isPrefixOf s.data

/-- The match test of the search loop, line 80:
`isExact || userLowerName.indexOf(lowerName) === 0` where
`isExact = (userLowerName === lowerName)`. -/
def nameMatches (lowerName : String) (user : User) : Bool :=
  jsToLower user.name == lowerName || jsStartsWith (jsToLower user.name) lowerName

/-- The `for (const id of letterUsers)` loop of `findUsersByName`, with the
accumulated `users` array and `exactIndex` threaded through.  Reading
`this.users[id]` when the id is absent would throw (`user.name` of
`undefined`), hence the `Option` result. -/
def scanBucket (lookup : Nat → Option User) (lowerName : String) :
    List Nat → List User → Option Nat → Option (List User × Option Nat)
  | [], users, exactIndex => some (users, exactIndex)
  | id :: rest, users, exactIndex =>
    match lookup id with
    | none => none
    | some user =>
      let isExact := jsToLower user.name == lowerName
      if isExact || jsStartsWith (jsToLower user.name) lowerName then
        let users' := users ++ [user]
        let exact' := if isExact then some (users'.length - 1) else exactIndex
        if users'.length == MENTION_SEARCH_LIMIT then
          some (users', exact')
        else
          scanBucket lookup lowerName rest users' exact'
      else
        scanBucket lookup lowerName rest users exactIndex

/-- Method `findUsersByName(name)`: partial-match search inside the bucket of the
query's lowercase first character.  An empty query makes `lowerName[0]`
`undefined`, so no bucket is found and the result is `{users: [], exactIndex:
null}`. -/
def Account.findUsersByName (a : Account) (name : String) :
    Option (List User × Option Nat) :=
  let lowerName := jsToLower name
  match lowerName.data.head? with
  | none => some ([], none)
  | some firstLetter => scanBucket a.users lowerName (a.userNamesMap firstLetter) [] none

/-- The fold body of `computeReadState`:
`(r, c) => (c.isRead || c.isMuted) ? r : false`. -/
def readFold (r : Bool) (c : Channel) : Bool :=
  if c.isRead || c.isMuted then r else false

/-- Method `computeReadState()`: `this.channels.reduce(compute, this.dms.reduce(compute, true))`. -/
def Account.computeReadState (a : Account) : Bool :=
  a.channels.foldl readFold (a.dms.foldl readFold true)

/-- Lines 114-120 of `saveUser`: push the id onto the bucket of the new
name's first letter (creating the bucket if missing, which the total-function
model renders as appending to `[]`) and store the record under its id. -/
def insertNewUser (a1 : Account) (newFirstLetter : Char) (newUser : User) : Account :=
  { a1 with
    userNamesMap := fun l =>
      if l = newFirstLetter then a1.userNamesMap newFirstLetter ++ [newUser.id]
      else a1.userNamesMap l
    users := fun i => if i = newUser.id then some newUser else a1.users i }

/-- Lines 107-111 of `saveUser`: `indexOf` + `splice(index, 1)` on the old
bucket, i.e. remove the first occurrence of the old id if present. -/
def removeOldIndexEntry (a : Account) (oldFirstLetter : Char) (oldId : Nat) : Account :=
  { a with
    userNamesMap := fun l =>
      if l = oldFirstLetter then (a.userNamesMap oldFirstLetter).erase oldId
      else a.userNamesMap l }

/-- Method `saveUser(newUser)`.  `newUser.name[0].toLowerCase()` throws on an empty
name (`none`); if a previous record with the same id exists under a
*different* name, the old id is removed from the bucket of the old name's
lowercase first character; then the id is pushed onto the bucket of the new
name's first character and the record stored.  Returns the stored user. -/
def Account.saveUser (a : Account) (newUser : User) : Option (Account × User) :=
  match newUser.name.data.head? with
  | none => none
  | some nc =>
    match a.users newUser.id with
    | none => some (insertNewUser a nc.toLower newUser, newUser)
    | some oldUser =>
      if oldUser.name ≠ newUser.name then
        match oldUser.name.data.head? with
        | none => none
        | some oc =>
          some (insertNewUser (removeOldIndexEntry a oc.toLower oldUser.id)
                  nc.toLower newUser, newUser)
      else
        some (insertNewUser a nc.toLower newUser, newUser)

/-- Method `setReadState(read)`: assign and dispatch only when the value differs;
the registry is then asked to recompute the cross-account aggregate. -/
def Account.setReadState (a : Account) (read : Bool) : Account × List AccountEvent :=
  if a.isRead ≠ read then
    ({ a with isRead := read },
     [.updateReadState read, .registryUpdateReadState])
  else (a, [])

/-- Method `updateReadState()`: `this.setReadState(this.computeReadState())`. -/
def Account.updateReadState (a : Account) : Account × List AccountEvent :=
  a.setReadState a.computeReadState

/-- The fold body of `updateMentions`: `(m, c) => m + c.mentions`. -/
def mentionsFold (m : Nat) (c : Channel) : Nat :=
  m + c.mentions

/-- The recomputed sum of `updateMentions`:
`this.channels.reduce(compute, this.dms.reduce(compute, 0))`. -/
def Account.computeMentionsSum (a : Account) : Nat :=
  a.channels.foldl mentionsFold (a.dms.foldl mentionsFold 0)

/-- Method `updateMentions()`: recompute the sum; on change store it, dispatch
`onUpdateMentions` and ask the registry to recompute its total. -/
def Account.updateMentions (a : Account) : Account × List AccountEvent :=
  let mentions := a.computeMentionsSum
  if mentions ≠ a.mentions then
    ({ a with mentions := mentions },
     [.updateMentions, .registryUpdateMentions])
  else (a, [])

/-- The JS error thrown by a base-class lifecycle method. -/
inductive JsError where
  | error (message : String)
  deriving Repr, DecidableEq

/-- Method `async disconnect()`: throws `Error('Should be implemented by subclass')`. -/
def Account.disconnect (_ : Account) : Except JsError Unit :=
  .error (.error "Should be implemented by subclass")

/-- Method `async reload()`: throws `Error('Should be implemented by subclass')`. -/
def Account.reload (_ : Account) : Except JsError Unit :=
  .error (.error "Should be implemented by subclass")

/-- Method `async getAllChannels()`: throws `Error('Should be implemented by subclass')`. -/
def Account.getAllChannels (_ : Account) : Except JsError (List Channel) :=
  .error (.error "Should be implemented by subclass")

/-- Method `async join(channel)`: throws `Error('Should be implemented by subclass')`. -/
def Account.join (_ : Account) (_ : Channel) : Except JsError Unit :=
  .error (.error "Should be implemented by subclass")

/-- Method `async leave(channel)`: throws `Error('Should be implemented by subclass')`. -/
def Account.leave (_ : Account) (_ : Channel) : Except JsError Unit :=
  .error (.error "Should be implemented by subclass")

/-- The caller-side reordering of `chat-box.js` lines 407-409:
`if (exactIndex !== null) users.unshift(users.splice(exactIndex, 1)[0])`.
The index is always in range when this runs (it came out of
`findUsersByName`); out of range the JS would prepend `undefined`, an
unreachable branch we render as a no-op. -/
def reorderExactToTop (users : List User) (exactIndex : Option Nat) : List User :=
  match exactIndex with
  | none => users
  | some i =>
    match users.get? i with
    | none => users
    | some u => u :: users.eraseIdx i

/-- Run a list of `saveUser` calls from a given state, stopping at the first
thrown error. -/
def runSaves (a : Account) : List User → Option Account
  | [] => some a
  | u :: us => (a.saveUser u).bind (fun r => runSaves r.1 us)

/-- A fresh account used by the concrete scenarios. -/
def acct0 : Account :=
  Account.init "slack" "team" "Team" none none

/-- The bucket `findUsersByName` scans for a given query: the one keyed by
the lowercase first character of the query, empty when the query is empty. -/
def Account.bucketOf (a : Account) (name : String) : List Nat :=
  match (jsToLower name).data.head? with
  | none => []
  | some firstLetter => a.userNamesMap firstLetter

/-- All `Account` fields other than `isRead` and `mentions` agree between
the two states (used to state frame properties of the read/mention
updaters). -/
def FrameOk (a b : Account) : Prop :=
  b.channels = a.channels ∧ b.dms = a.dms ∧ b.users = a.users ∧
  b.userNamesMap = a.userNamesMap ∧ b.id = a.id ∧ b.name = a.name ∧
  b.icon = a.icon ∧ b.url = a.url ∧ b.currentChannelId = a.currentChannelId ∧
  b.currentUserId = a.currentUserId ∧ b.currentUserName = a.currentUserName ∧
  b.status = a.status ∧ b.isChannelsReady = a.isChannelsReady

/-- The state after `saveUser({id:1, name:"Bob"})` on a fresh account. -/
def stBob : Account :=
  ((acct0.saveUser ⟨1, "Bob"⟩).map Prod.fst).getD acct0

/-- The state and returned user of the subsequent
`saveUser({id:1, name:"Robert"})` call. -/
def stRobert : Account × User :=
  (stBob.saveUser ⟨1, "Robert"⟩).getD (acct0, ⟨1, "Robert"⟩)

/-- A directory holding `Alexander` (saved first) and `Alex`: the exact
match for the query `"alex"` is scanned second. -/
def stAlex : Account :=
  (runSaves acct0 [⟨1, "Alexander"⟩, ⟨2, "Alex"⟩]).getD acct0

/-- The directory of the P5 scenario: `Alice`, `Alex`, `Alexander`, `Bob`,
saved in that order. -/
def stP5 : Account :=
  (runSaves acct0 [⟨1, "Alice"⟩, ⟨2, "Alex"⟩, ⟨3, "Alexander"⟩, ⟨4, "Bob"⟩]).getD acct0

/-- A sample channel used by witnesses. -/
def chanA : Channel :=
  { id := 10, isRead := false, isMuted := false, mentions := 2 }

/-- The sample channel with its mention count changed (delta +3). -/
def chanB : Channel :=
  { chanA with mentions := 5 }

/-- A sample DM used by witnesses. -/
def dmA : Channel :=
  { id := 11, isRead := true, isMuted := false, mentions := 1, userId := some 7 }

/-- An account with one channel and one DM, used by witnesses. -/
def acct1 : Account :=
  { acct0 with channels := [chanA], dms := [dmA], mentions := 3 }

end Wey

namespace Wey

theorem readFold_foldl (l : List Channel) (b : Bool) :
    l.foldl readFold b = (b && l.all fun c => c.isRead || c.isMuted) := by
  induction l generalizing b with
  | nil => simp
  | cons c t ih =>
    simp only [List.foldl_cons, List.all_cons, readFold, ih]
    cases hc : (c.isRead || c.isMuted) <;> simp [hc]

theorem all_readOrMuted_false_iff (l : List Channel) :
    (l.all fun c => c.isRead || c.isMuted) = false ↔
      ∃ c ∈ l, c.isRead = false ∧ c.isMuted = false := by
  induction l with
  | nil => simp
  | cons c t ih =>
    cases hr : c.isRead <;> cases hm : c.isMuted <;>
      simp [List.all_cons, hr, hm, ih]

theorem mentionsFold_foldl (l : List Channel) (n : Nat) :
    l.foldl mentionsFold n = n + (l.map Channel.mentions).sum := by
  induction l generalizing n with
  | nil => simp
  | cons c t ih =>
    simp only [List.foldl_cons, mentionsFold, ih, List.map_cons, List.sum_cons]
    omega

theorem computeMentionsSum_eq (a : Account) :
    a.computeMentionsSum
      = (a.dms.map Channel.mentions).sum + (a.channels.map Channel.mentions).sum := by
  simp [Account.computeMentionsSum, mentionsFold_foldl]

theorem sum_map_set (l : List Channel) (i : Nat) (c' : Channel) (h : i < l.length) :
    ((l.set i c').map Channel.mentions).sum + (l.get ⟨i, h⟩).mentions
      = (l.map Channel.mentions).sum + c'.mentions := by
  induction l generalizing i with
  | nil => simp at h
  | cons c t ih =>
    cases i with
    | zero => simp [List.set]; omega
    | succ j =>
      have hj : j < t.length := by simpa using h
      have hrec := ih j hj
      simp only [List.set, List.map_cons, List.sum_cons, List.get_cons_succ]
      omega

/-- C1 (code bug): re-saving a user whose name is unchanged duplicates its
id in the index: after `saveUser({id:1,name:"Bob"})` twice on a fresh
account, bucket `'b'` holds id 1 twice, and the name search then returns the
same user twice — contradicting the invariant that every id occurs in
exactly one bucket exactly once. -/
theorem saveUser_resave_duplicates_index :
    ((runSaves acct0 [⟨1, "Bob"⟩, ⟨1, "Bob"⟩]).map
        (fun a => (a.userNamesMap 'b').count 1) = some 2) ∧
    ((runSaves acct0 [⟨1, "Bob"⟩, ⟨1, "Bob"⟩]).map
        (fun a => a.findUsersByName "bob")
      = some (some ([⟨1, "Bob"⟩, ⟨1, "Bob"⟩], some 1))) := by
  constructor <;> decide

/-- C4: `computeReadState` is `true` on empty collections, and is `false`
exactly when some channel or DM is neither read nor muted. -/
theorem computeReadState_spec :
    (∀ a : Account,
      Account.computeReadState { a with channels := [], dms := [] } = true) ∧
    (∀ a : Account, a.computeReadState = false ↔
      ∃ c, (c ∈ a.channels ∨ c ∈ a.dms) ∧ c.isRead = false ∧ c.isMuted = false) := by
  constructor
  · intro a
    simp [Account.computeReadState]
  · intro a
    rw [Account.computeReadState, readFold_foldl, readFold_foldl, Bool.true_and]
    constructor
    · intro hfalse
      have hsplit : (a.dms.all fun c => c.isRead || c.isMuted) = false
          ∨ (a.channels.all fun c => c.isRead || c.isMuted) = false := by
        cases hdm : (a.dms.all fun c => c.isRead || c.isMuted) <;>
          cases hchn : (a.channels.all fun c => c.isRead || c.isMuted) <;>
            simp_all
      rcases hsplit with hsp | hsp
      · rcases (all_readOrMuted_false_iff _).mp hsp with ⟨c, hc, h1, h2⟩
        exact ⟨c, Or.inr hc, h1, h2⟩
      · rcases (all_readOrMuted_false_iff _).mp hsp with ⟨c, hc, h1, h2⟩
        exact ⟨c, Or.inl hc, h1, h2⟩
    · rintro ⟨c, hc | hc, h1, h2⟩
      · have hf : (a.channels.all fun x => x.isRead || x.isMuted) = false :=
          (all_readOrMuted_false_iff _).mpr ⟨c, hc, h1, h2⟩
        simp [hf]
      · have hf : (a.dms.all fun x => x.isRead || x.isMuted) = false :=
          (all_readOrMuted_false_iff _).mpr ⟨c, hc, h1, h2⟩
        simp [hf]

/-- C5: `updateMentions` always leaves the stored count equal to the
recomputed sum; it rewrites the count and dispatches exactly when the sum
changed, does nothing when it is unchanged, and a change of one channel's
mentions moves the stored count by exactly that delta. -/
theorem updateMentions_spec :
    (∀ a : Account, (a.updateMentions).1.mentions = a.computeMentionsSum) ∧
    (∀ a : Account, a.computeMentionsSum ≠ a.mentions →
      a.updateMentions = ({ a with mentions := a.computeMentionsSum },
        [AccountEvent.updateMentions, AccountEvent.registryUpdateMentions])) ∧
    (∀ a : Account, a.computeMentionsSum = a.mentions →
      a.updateMentions = (a, [])) ∧
    (∀ (a : Account) (i : Nat) (c' : Channel) (h : i < a.channels.length),
      a.mentions = a.computeMentionsSum →
      ((({ a with channels := a.channels.set i c' } : Account).updateMentions).1.mentions : Int)
          - (a.mentions : Int)
       = (c'.mentions : Int) - ((a.channels.get ⟨i, h⟩).mentions : Int)) := by
  have h1 : ∀ a : Account, (a.updateMentions).1.mentions = a.computeMentionsSum := by
    intro a
    rw [Account.updateMentions]
    split
    · rfl
    · next h => simpa using (not_ne_iff.mp h).symm
  refine ⟨h1, ?_, ?_, ?_⟩
  · intro a h
    rw [Account.updateMentions, if_pos h]
  · intro a h
    rw [Account.updateMentions, if_neg (not_ne_iff.mpr h)]
  · intro a i c' h hsync
    have h2 := h1 ({ a with channels := a.channels.set i c' } : Account)
    have hsum : (({ a with channels := a.channels.set i c' } : Account).computeMentionsSum)
        + (a.channels.get ⟨i, h⟩).mentions = a.computeMentionsSum + c'.mentions := by
      have hset := sum_map_set a.channels i c' h
      simp only [computeMentionsSum_eq]
      show (a.dms.map Channel.mentions).sum + ((a.channels.set i c').map Channel.mentions).sum
            + (a.channels.get ⟨i, h⟩).mentions
          = (a.dms.map Channel.mentions).sum + (a.channels.map Channel.mentions).sum
            + c'.mentions
      omega
    rw [h2]
    omega

/-- C6: `setReadState` assigns only when the value differs; a second call
with the same value is a no-op that dispatches nothing, so the read-state
signal fires at most once across the two calls. -/
theorem setReadState_spec :
    (∀ (a : Account) (v : Bool), a.isRead = v → a.setReadState v = (a, [])) ∧
    (∀ (a : Account) (v : Bool),
      ((a.setReadState v).1).setReadState v = ((a.setReadState v).1, [])) ∧
    (∀ (a : Account) (v : Bool),
      (((a.setReadState v).2 ++ (((a.setReadState v).1).setReadState v).2).countP
          (fun e => e = AccountEvent.updateReadState v)) ≤ 1) := by
  refine ⟨?_, ?_, ?_⟩
  · intro a v h
    simp [Account.setReadState, h]
  · intro a v
    by_cases h : a.isRead = v <;> simp [Account.setReadState, h]
  · intro a v
    by_cases h : a.isRead = v <;>
      simp [Account.setReadState, h, List.countP_cons, List.countP_nil]

/-- C8: every lifecycle operation of the base container — `disconnect`,
`reload`, `getAllChannels`, `join`, `leave` — fails with the
not-implemented error instead of returning normally. -/
theorem lifecycle_not_implemented (a : Account) (c : Channel) :
    a.disconnect = .error (.error "Should be implemented by subclass") ∧
    a.reload = .error (.error "Should be implemented by subclass") ∧
    a.getAllChannels = .error (.error "Should be implemented by subclass") ∧
    a.join c = .error (.error "Should be implemented by subclass") ∧
    a.leave c = .error (.error "Should be implemented by subclass") :=
  ⟨rfl, rfl, rfl, rfl, rfl⟩

/-- C9: `findChannelByUserId` only ever yields a DM whose `userId` equals
the query: a hit lies in `dms` with that `userId`, a miss means no DM
carries it, and the result never depends on `channels`. -/
theorem findChannelByUserId_spec :
    (∀ (a : Account) (uid : Nat) (c : Channel),
      a.findChannelByUserId uid = some c → c ∈ a.dms ∧ c.userId = some uid) ∧
    (∀ (a : Account) (uid : Nat),
      a.findChannelByUserId uid = none ↔ ∀ c ∈ a.dms, c.userId ≠ some uid) ∧
    (∀ (a : Account) (uid : Nat) (cs : List Channel),
      ({ a with channels := cs } : Account).findChannelByUserId uid
        = a.findChannelByUserId uid) := by
  refine ⟨?_, ?_, ?_⟩
  · intro a uid c h
    refine ⟨List.mem_of_find?_eq_some h, ?_⟩
    simpa using List.find?_some h
  · intro a uid
    rw [Account.findChannelByUserId, List.find?_eq_none]
    simp
  · intro a uid cs
    rfl

/-- C10: `setReadState`, `updateReadState` and `updateMentions` modify at
most `isRead` and `mentions`: the collections, the user directory and its
index, and the identity and session fields are all untouched. -/
theorem aggregates_frame (a : Account) (v : Bool) :
    FrameOk a ((a.setReadState v).1) ∧ FrameOk a ((a.updateReadState).1) ∧
      FrameOk a ((a.updateMentions).1) := by
  refine ⟨?_, ?_, ?_⟩ <;>
    simp only [Account.setReadState, Account.updateReadState, Account.updateMentions] <;>
    split <;>
    simp [FrameOk]

/-- C7: renaming `Bob` (id 1) to `Robert` moves id 1 from bucket `'b'` to
bucket `'r'`; in general a re-save under a changed name erases the old id
from the old first-letter bucket, appends the id to the new first-letter
bucket, stores the record, and returns it. -/
theorem saveUser_rename_spec :
    ((runSaves acct0 [⟨1, "Bob"⟩, ⟨1, "Robert"⟩]).map
        (fun a => ((a.userNamesMap 'b').count 1, (a.userNamesMap 'r').count 1))
      = some (0, 1)) ∧
    (∀ (a : Account) (u old : User) (oc nc : Char) (a' : Account) (ret : User),
      a.users u.id = some old → old.name ≠ u.name →
      old.name.data.head? = some oc → u.name.data.head? = some nc →
      a.saveUser u = some (a', ret) →
      ret = u ∧ a'.users u.id = some u ∧
      a'.userNamesMap nc.toLower =
        (if nc.toLower = oc.toLower
          then (a.userNamesMap oc.toLower).erase old.id
          else a.userNamesMap nc.toLower) ++ [u.id] ∧
      (oc.toLower ≠ nc.toLower →
        a'.userNamesMap oc.toLower = (a.userNamesMap oc.toLower).erase old.id)) := by
  constructor
  · decide
  · intro a u old oc nc a' ret hu hne hoc hnc hsave
    simp only [Account.saveUser, hnc, hu, hoc, if_pos hne] at hsave
    have hpair := Option.some.inj hsave
    have ha' : a' = insertNewUser (removeOldIndexEntry a oc.toLower old.id) nc.toLower u :=
      (congrArg Prod.fst hpair).symm
    have hret : ret = u := (congrArg Prod.snd hpair).symm
    subst ha'
    refine ⟨hret, ?_, ?_, ?_⟩
    · simp [insertNewUser]
    · by_cases hco : nc.toLower = oc.toLower <;>
        simp [insertNewUser, removeOldIndexEntry, hco]
    · intro hneq
      simp [insertNewUser, removeOldIndexEntry, hneq, Ne.symm hneq]

end Wey

namespace Wey

theorem scanBucket_exact_sound (lookup : Nat → Option User) (ln : String) :
    ∀ (ids : List Nat) (acc : List User) (exact : Option Nat) (res : List User) (i : Nat),
      (∀ j, exact = some j → ∃ u, acc.get? j = some u ∧ jsToLower u.name = ln) →
      scanBucket lookup ln ids acc exact = some (res, some i) →
      ∃ u, res.get? i = some u ∧ jsToLower u.name = ln := by
  intro ids
  induction ids with
  | nil =>
    intro acc exact res i hinv hscan
    have hp := Option.some.inj hscan
    have hacc : acc = res := congrArg Prod.fst hp
    subst hacc
    exact hinv i (congrArg Prod.snd hp)
  | cons id rest ih =>
    intro acc exact res i hinv hscan
    rw [scanBucket] at hscan
    cases hl : lookup id with
    | none => rw [hl] at hscan; exact absurd hscan (by simp)
    | some user =>
      rw [hl] at hscan
      simp only at hscan
      have hinv' : ∀ j,
          (if (jsToLower user.name == ln) = true
            then some ((acc ++ [user]).length - 1) else exact) = some j →
          ∃ u, (acc ++ [user]).get? j = some u ∧ jsToLower u.name = ln := by
        intro j hj
        by_cases hex : (jsToLower user.name == ln) = true
        · rw [if_pos hex] at hj
          have hjj : j = acc.length := by
            have := Option.some.inj hj
            simp at this
            omega
          subst hjj
          exact ⟨user, List.get?_concat_length acc user, eq_of_beq hex⟩
        · rw [if_neg hex] at hj
          obtain ⟨u, hu1, hu2⟩ := hinv j hj
          have hlt : j < acc.length := by
            by_contra hge
            rw [List.get?_eq_none.mpr (le_of_not_lt hge)] at hu1
            exact Option.noConfusion hu1
          refine ⟨u, ?_, hu2⟩
          rw [List.get?_append hlt]
          exact hu1
      split at hscan
      case isTrue hcond =>
        split at hscan
        case isTrue hlim =>
          have hp := Option.some.inj hscan
          have hacc : acc ++ [user] = res := congrArg Prod.fst hp
          subst hacc
          exact hinv' i (congrArg Prod.snd hp)
        case isFalse hlim =>
          exact ih _ _ _ _ hinv' hscan
      case isFalse hcond =>
        exact ih _ _ _ _ hinv hscan

theorem scanBucket_isSome_exact (lookup : Nat → Option User) (ln : String) :
    ∀ (ids : List Nat) (acc : List User) (j : Nat) (res : List User) (e : Option Nat),
      scanBucket lookup ln ids acc (some j) = some (res, e) → ∃ k, e = some k := by
  intro ids
  induction ids with
  | nil =>
    intro acc j res e hscan
    exact ⟨j, (congrArg Prod.snd (Option.some.inj hscan)).symm⟩
  | cons id rest ih =>
    intro acc j res e hscan
    rw [scanBucket] at hscan
    cases hl : lookup id with
    | none => rw [hl] at hscan; exact absurd hscan (by simp)
    | some user =>
      rw [hl] at hscan
      simp only at hscan
      split at hscan
      case isTrue hcond =>
        by_cases hex : (jsToLower user.name == ln) = true
        · rw [if_pos hex] at hscan
          split at hscan
          next =>
            exact ⟨_, (congrArg Prod.snd (Option.some.inj hscan)).symm⟩
          next =>
            exact ih _ _ _ _ hscan
        · rw [if_neg hex] at hscan
          split at hscan
          next =>
            exact ⟨j, (congrArg Prod.snd (Option.some.inj hscan)).symm⟩
          next =>
            exact ih _ _ _ _ hscan
      case isFalse hcond =>
        exact ih _ _ _ _ hscan

theorem scanBucket_exact_none (lookup : Nat → Option User) (ln : String) :
    ∀ (ids : List Nat) (acc res : List User),
      (∀ u ∈ acc, jsToLower u.name ≠ ln) →
      scanBucket lookup ln ids acc none = some (res, none) →
      ∀ u ∈ res, jsToLower u.name ≠ ln := by
  intro ids
  induction ids with
  | nil =>
    intro acc res hinv hscan
    have hacc : acc = res := congrArg Prod.fst (Option.some.inj hscan)
    subst hacc
    exact hinv
  | cons id rest ih =>
    intro acc res hinv hscan
    rw [scanBucket] at hscan
    cases hl : lookup id with
    | none => rw [hl] at hscan; exact absurd hscan (by simp)
    | some user =>
      rw [hl] at hscan
      simp only at hscan
      split at hscan
      case isTrue hcond =>
        by_cases hex : (jsToLower user.name == ln) = true
        · rw [if_pos hex] at hscan
          split at hscan
          next =>
            have := congrArg Prod.snd (Option.some.inj hscan)
            exact absurd this (by simp)
          next =>
            obtain ⟨k, hk⟩ := scanBucket_isSome_exact lookup ln rest _ _ _ _ hscan
            exact absurd hk (by simp)
        · rw [if_neg hex] at hscan
          have hinv' : ∀ u ∈ acc ++ [user], jsToLower u.name ≠ ln := by
            intro u hu
            rcases List.mem_append.mp hu with hmem | hmem
            · exact hinv u hmem
            · have huser : u = user := by simpa using hmem
              subst huser
              intro hcontra
              exact hex (by simp [hcontra])
          split at hscan
          next =>
            have hacc : acc ++ [user] = res := congrArg Prod.fst (Option.some.inj hscan)
            subst hacc
            exact hinv'
          next =>
            exact ih _ _ hinv' hscan
      case isFalse hcond =>
        exact ih _ _ hinv hscan

theorem scanBucket_users_eq (lookup : Nat → Option User) (ln : String) :
    ∀ (ids : List Nat) (acc : List User) (exact : Option Nat) (res : List User) (e : Option Nat),
      acc.length < MENTION_SEARCH_LIMIT →
      (∀ id ∈ ids, lookup id ≠ none) →
      scanBucket lookup ln ids acc exact = some (res, e) →
      res = acc ++ ((ids.filterMap lookup).filter (nameMatches ln)).take
        (MENTION_SEARCH_LIMIT - acc.length) := by
  intro ids
  induction ids with
  | nil =>
    intro acc exact res e hlen hids hscan
    have hacc : acc = res := congrArg Prod.fst (Option.some.inj hscan)
    subst hacc
    simp
  | cons id rest ih =>
    intro acc exact res e hlen hids hscan
    rw [scanBucket] at hscan
    cases hl : lookup id with
    | none => exact absurd hl (hids id (List.mem_cons_self id rest))
    | some user =>
      rw [hl] at hscan
      simp only at hscan
      have hrest : ∀ x ∈ rest, lookup x ≠ none :=
        fun x hx => hids x (List.mem_cons_of_mem id hx)
      have hfm : (id :: rest).filterMap lookup = user :: rest.filterMap lookup := by
        simp [List.filterMap_cons, hl]
      rw [hfm]
      split at hscan
      case isTrue hcond =>
        have hmatch : nameMatches ln user = true := hcond
        rw [List.filter_cons_of_pos hmatch]
        obtain ⟨k, hk⟩ : ∃ k, MENTION_SEARCH_LIMIT - acc.length = k + 1 :=
          ⟨MENTION_SEARCH_LIMIT - acc.length - 1, by omega⟩
        rw [hk, List.take_succ_cons]
        split at hscan
        case isTrue hlim =>
          have hlim' : acc.length + 1 = MENTION_SEARCH_LIMIT := by
            simpa using hlim
          have hk0 : k = 0 := by omega
          subst hk0
          have hacc : acc ++ [user] = res := congrArg Prod.fst (Option.some.inj hscan)
          subst hacc
          simp
        case isFalse hlim =>
          have hlim' : acc.length + 1 ≠ MENTION_SEARCH_LIMIT := by
            intro hcontra
            apply hlim
            simp [hcontra]
          have hrec := ih (acc ++ [user]) _ res e (by simp; omega) hrest hscan
          rw [hrec]
          have hk' : MENTION_SEARCH_LIMIT - (acc ++ [user]).length = k := by
            simp
            omega
          rw [hk']
          simp
      case isFalse hcond =>
        have hmatch : ¬ nameMatches ln user = true := hcond
        rw [List.filter_cons_of_neg hmatch]
        exact ih acc exact res e hlen hrest hscan

end Wey

namespace Wey

/-- C3 (amended): `findUsersByName` returns, in bucket order, exactly the
users of the bucket keyed by the query's lowercase first character whose
lowercased name equals or starts with the lowercased query, cut off once the
limit (5) matches are collected; `exactIndex` points at an exact match when
one was scanned and is absent otherwise; an empty query, or a query whose
first character has no bucket, yields an empty match sequence with no exact
index.  In the scenario with users `Alice`, `Alex`, `Alexander`, `Bob`, the
query `"ale"` yields `{Alex, Alexander}` in directory order (`Alice` does
not match the prefix) with no exact index, and `"alex"` yields the same set
with the exact index at `Alex` (position 0). -/
theorem findUsersByName_spec :
    (∀ (a : Account) (name : String) (res : List User) (e : Option Nat),
      (∀ id ∈ a.bucketOf name, a.users id ≠ none) →
      a.findUsersByName name = some (res, e) →
      res = (((a.bucketOf name).filterMap a.users).filter
          (nameMatches (jsToLower name))).take MENTION_SEARCH_LIMIT ∧
      (∀ i, e = some i →
        ∃ u, res.get? i = some u ∧ jsToLower u.name = jsToLower name) ∧
      (e = none → ∀ u ∈ res, jsToLower u.name ≠ jsToLower name)) ∧
    (∀ (a : Account) (name : String), a.bucketOf name = [] →
      a.findUsersByName name = some ([], none)) ∧
    (stP5.findUsersByName "ale" = some ([⟨2, "Alex"⟩, ⟨3, "Alexander"⟩], none) ∧
     stP5.findUsersByName "alex" = some ([⟨2, "Alex"⟩, ⟨3, "Alexander"⟩], some 0)) := by
  refine ⟨?_, ?_, ?_⟩
  · intro a name res e hres hfind
    cases hh : (jsToLower name).data.head? with
    | none =>
      simp only [Account.findUsersByName, hh] at hfind
      have hr : res = [] := (congrArg Prod.fst (Option.some.inj hfind)).symm
      have he : e = (none : Option Nat) := (congrArg Prod.snd (Option.some.inj hfind)).symm
      have hb : a.bucketOf name = [] := by simp [Account.bucketOf, hh]
      subst hr he
      refine ⟨by simp [hb], ?_, ?_⟩
      · intro i hi
        exact absurd hi (by simp)
      · intro _ u hu
        exact absurd hu (by simp)
    | some c =>
      simp only [Account.findUsersByName, hh] at hfind
      have hb : a.bucketOf name = a.userNamesMap c := by
        simp [Account.bucketOf, hh]
      refine ⟨?_, ?_, ?_⟩
      · have hval := scanBucket_users_eq a.users (jsToLower name)
          (a.userNamesMap c) [] none res e (by simp [MENTION_SEARCH_LIMIT])
          (by rw [← hb]; exact hres) hfind
        rw [hb]
        simpa using hval
      · intro i hi
        rw [hi] at hfind
        exact scanBucket_exact_sound a.users (jsToLower name)
          (a.userNamesMap c) [] none res i (by simp) hfind
      · intro he u hu
        rw [he] at hfind
        exact scanBucket_exact_none a.users (jsToLower name)
          (a.userNamesMap c) [] res (by simp) hfind u hu
  · intro a name hb
    rw [Account.findUsersByName]
    cases hh : (jsToLower name).data.head? with
    | none => simp [hh]
    | some c =>
      have hempty : a.userNamesMap c = [] := by
        simpa [Account.bucketOf, hh] using hb
      simp [hh, hempty, scanBucket]
  · constructor <;> decide

/-- Concrete check that in the P5 directory the query `"ale"` does not
return `Alice`: `"alice"` neither equals nor starts with `"ale"`, so the
result set claimed by the specification is wrong. -/
theorem findUsersByName_counterexample :
    stP5.findUsersByName "ale" = some ([⟨2, "Alex"⟩, ⟨3, "Alexander"⟩], none) ∧
    (⟨1, "Alice"⟩ : User) ∉ ([⟨2, "Alex"⟩, ⟨3, "Alexander"⟩] : List User) := by
  constructor <;> decide

/-- Instantiation of the `findUsersByName` characterisation on the P5
directory and the query `"ale"`. -/
theorem findUsersByName_witness :
    (∀ id ∈ stP5.bucketOf "ale", stP5.users id ≠ none) ∧
    ([⟨2, "Alex"⟩, ⟨3, "Alexander"⟩] : List User)
      = (((stP5.bucketOf "ale").filterMap stP5.users).filter
          (nameMatches (jsToLower "ale"))).take MENTION_SEARCH_LIMIT :=
  ⟨by decide,
   (findUsersByName_spec.1 stP5 "ale" [⟨2, "Alex"⟩, ⟨3, "Alexander"⟩] none
      (by decide) (by decide)).1⟩

/-- Concrete check that `Account.findUsersByName` itself does not move the
exact match to the front: with `Alexander` saved before `Alex`, the query
`"alex"` comes back with the exact match `Alex` at index 1, not index 0. -/
theorem exact_match_position_counterexample :
    stAlex.findUsersByName "alex"
      = some ([⟨1, "Alexander"⟩, ⟨2, "Alex"⟩], some 1) ∧
    ([⟨1, "Alexander"⟩, ⟨2, "Alex"⟩] : List User).head? ≠ some ⟨2, "Alex"⟩ := by
  constructor <;> decide

/-- C2 (amended): `findUsersByName` only reports the exact match's position
through `exactIndex`; the chat-box caller then moves that entry to the front
(`users.unshift(users.splice(exactIndex, 1)[0])`), after which the exact
(case-insensitive) match is at index 0 of the sequence. -/
theorem exact_match_reordered_to_top :
    ∀ (a : Account) (name : String) (us : List User) (i : Nat),
      a.findUsersByName name = some (us, some i) →
      ∃ u, us.get? i = some u ∧ jsToLower u.name = jsToLower name ∧
        (reorderExactToTop us (some i)).head? = some u := by
  intro a name us i hfind
  cases hh : (jsToLower name).data.head? with
  | none =>
    simp only [Account.findUsersByName, hh] at hfind
    have := congrArg Prod.snd (Option.some.inj hfind)
    exact absurd this (by simp)
  | some c =>
    simp only [Account.findUsersByName, hh] at hfind
    obtain ⟨u, hu, hexact⟩ := scanBucket_exact_sound a.users (jsToLower name)
      (a.userNamesMap c) [] none us i (by simp) hfind
    refine ⟨u, hu, hexact, ?_⟩
    simp only [reorderExactToTop]
    rw [hu]
    rfl

/-- Instantiation of the caller-side reordering on the `Alexander`/`Alex`
directory: after the chat-box step the exact match `Alex` heads the list. -/
theorem exact_match_reordered_witness :
    stAlex.findUsersByName "alex" = some ([⟨1, "Alexander"⟩, ⟨2, "Alex"⟩], some 1) ∧
    ∃ u, ([⟨1, "Alexander"⟩, ⟨2, "Alex"⟩] : List User).get? 1 = some u ∧
      jsToLower u.name = jsToLower "alex" ∧
      (reorderExactToTop [⟨1, "Alexander"⟩, ⟨2, "Alex"⟩] (some 1)).head? = some u :=
  ⟨by decide,
   exact_match_reordered_to_top stAlex "alex" [⟨1, "Alexander"⟩, ⟨2, "Alex"⟩] 1 (by decide)⟩

/-- Instantiation of the read-state characterisation: the sample account has
an unread, unmuted channel, so its recomputed read state is `false`. -/
theorem computeReadState_witness :
    acct1.computeReadState = false :=
  (computeReadState_spec.2 acct1).mpr ⟨chanA, Or.inl (by decide), by decide, by decide⟩

/-- Instantiation of the mention-delta property: raising the only channel's
mentions from 2 to 5 moves the stored count by exactly +3. -/
theorem updateMentions_witness :
    acct1.mentions = acct1.computeMentionsSum ∧
    ((({ acct1 with channels := acct1.channels.set 0 chanB } : Account).updateMentions).1.mentions : Int)
        - (acct1.mentions : Int)
      = (chanB.mentions : Int) - ((acct1.channels.get ⟨0, by decide⟩).mentions : Int) :=
  ⟨by decide, updateMentions_spec.2.2.2 acct1 0 chanB (by decide) (by decide)⟩

/-- Instantiation of the dedup property: a fresh account is already read, so
`setReadState(true)` changes nothing and dispatches nothing. -/
theorem setReadState_witness :
    acct0.isRead = true ∧ acct0.setReadState true = (acct0, []) :=
  ⟨rfl, setReadState_spec.1 acct0 true rfl⟩

/-- Instantiation of the rename scenario: `Bob` (id 1) renamed to `Robert`
leaves bucket `'b'` without id 1 and puts it once at the end of bucket
`'r'`. -/
theorem saveUser_rename_witness :
    stBob.users 1 = some ⟨1, "Bob"⟩ ∧
    stRobert.2 = (⟨1, "Robert"⟩ : User) ∧
    stRobert.1.users 1 = some ⟨1, "Robert"⟩ ∧
    stRobert.1.userNamesMap 'r' = stBob.userNamesMap 'r' ++ [1] ∧
    stRobert.1.userNamesMap 'b' = (stBob.userNamesMap 'b').erase 1 := by
  have h := saveUser_rename_spec.2 stBob ⟨1, "Robert"⟩ ⟨1, "Bob"⟩ 'B' 'R'
    stRobert.1 stRobert.2 (by decide) (by decide) (by decide) (by decide) rfl
  exact ⟨by decide, h.1, h.2.1, h.2.2.1, h.2.2.2 (by decide)⟩

/-- Instantiation of the lifecycle contract on a concrete account and
channel. -/
theorem lifecycle_not_implemented_witness :
    acct0.disconnect = .error (.error "Should be implemented by subclass") ∧
    acct0.reload = .error (.error "Should be implemented by subclass") ∧
    acct0.getAllChannels = .error (.error "Should be implemented by subclass") ∧
    acct0.join chanA = .error (.error "Should be implemented by subclass") ∧
    acct0.leave chanA = .error (.error "Should be implemented by subclass") :=
  lifecycle_not_implemented acct0 chanA

/-- Instantiation of the DM-lookup property: the only DM of the sample
account is found under its peer id 7. -/
theorem findChannelByUserId_witness :
    acct1.findChannelByUserId 7 = some dmA ∧ (dmA ∈ acct1.dms ∧ dmA.userId = some 7) :=
  ⟨by decide, findChannelByUserId_spec.1 acct1 7 dmA (by decide)⟩

/-- Instantiation of the frame property on the sample account. -/
theorem aggregates_frame_witness :
    FrameOk acct1 ((acct1.setReadState false).1) ∧
      FrameOk acct1 ((acct1.updateReadState).1) ∧
      FrameOk acct1 ((acct1.updateMentions).1) :=
  aggregates_frame acct1 false

end Wey
